import Mathlib

/-!
Verification of the `log` package: a shallow embedding of the structured
JSON line logger (`log.go`) and proofs about its rendering pipeline.

The embedding models Go `interface{}` field values with the inductive
`log.Value`, Go slices of `interface{}` (`type fields []interface{}`)
with `List Value`, and the package-scoped mutable configuration
(`Service`, `Time`, `Tags`, `DebugOn`) with an explicit `Globals`
record threaded through every render.  Side effects of a render
(time-source evaluation, hook execution, sink writes, the `trapme`
panic used for fatal escalation) are made explicit as an ordered
`List Event` trace.
-/

namespace log

/-- Alias for `String`, used in signatures inside the `fields` and
`line` namespaces where the bare name would resolve to the rendering
method of the same name. -/
abbrev Str := String

/-- A Go `interface{}` value as it can appear in a field list: nil, a
string, an int, a bool, a `[]string`, a non-string slice (represented
by `[]int`), or an `error` value carrying its message text. -/
inductive Value where
  | vnil
  | str (s : String)
  | int (n : Int)
  | bool (b : Bool)
  | strArr (xs : List String)
  | intArr (xs : List Int)
  | err (e : String)
deriving DecidableEq, Repr

/-- `func zero(v interface{}) bool`: true exactly when the value is a
`[]string` of length 0 (the type assertion fails for every other type). -/
def zero : Value → Bool
  | .strArr xs => xs.isEmpty
  | _ => false

/-- The skip condition of `fields.String`:
`val == "" || val == nil || zero(val)`. -/
def suppress (v : Value) : Bool :=
  (v == Value.str "") || (v == Value.vnil) || zero v

def hexDigit (n : Nat) : Char :=
  if n < 10 then Char.ofNat (48 + n) else Char.ofNat (87 + n)

def hex4 (n : Nat) : String :=
  String.mk [hexDigit (n / 4096 % 16), hexDigit (n / 256 % 16),
    hexDigit (n / 16 % 16), hexDigit (n % 16)]

/-- One character of `encoding/json` string escaping (HTML escaping on,
as in `json.Marshal`). -/
def jsonEscapeChar (c : Char) : String :=
  if c = '"' then "\\\""
  else if c = '\\' then "\\\\"
  else if c = '\n' then "\\n"
  else if c = '\r' then "\\r"
  else if c = '\t' then "\\t"
  else if c = '<' || c = '>' || c = '&' then "\\u" ++ hex4 c.toNat
  else if c.toNat < 32 then "\\u" ++ hex4 c.toNat
  else String.singleton c

/-- `json.Marshal` of a string value. -/
def jsonStr (s : String) : String :=
  "\"" ++ String.join (s.data.map jsonEscapeChar) ++ "\""

/-- One character of Go `%q` (strconv) string escaping. -/
def goEscapeChar (c : Char) : String :=
  if c = '"' then "\\\""
  else if c = '\\' then "\\\\"
  else if c = '\n' then "\\n"
  else if c = '\r' then "\\r"
  else if c = '\t' then "\\t"
  else if c.toNat < 32 then "\\x" ++ String.mk [hexDigit (c.toNat / 16), hexDigit (c.toNat % 16)]
  else String.singleton c

/-- `fmt.Sprintf("%q", s)` for a string `s`. -/
def goQuote (s : String) : String :=
  "\"" ++ String.join (s.data.map goEscapeChar) ++ "\""

def intStr (n : Int) : String := n.repr

def joinSp : List String → String
  | [] => ""
  | [x] => x
  | x :: r => x ++ " " ++ joinSp r

def joinComma : List String → String
  | [] => ""
  | [x] => x
  | x :: r => x ++ "," ++ joinComma r

def joinCommaSp : List String → String
  | [] => ""
  | [x] => x
  | x :: r => x ++ ", " ++ joinCommaSp r

/-- `fmt.Sprint` on a single value. -/
def vsprint : Value → String
  | .vnil => "<nil>"
  | .str s => s
  | .int n => intStr n
  | .bool b => if b then "true" else "false"
  | .strArr xs => "[" ++ joinSp xs ++ "]"
  | .intArr xs => "[" ++ joinSp (xs.map intStr) ++ "]"
  | .err e => e

/-- The Go dynamic type name of a value, as printed by `fmt` error verbs. -/
def goType : Value → String
  | .vnil => "<nil>"
  | .str _ => "string"
  | .int _ => "int"
  | .bool _ => "bool"
  | .strArr _ => "[]string"
  | .intArr _ => "[]int"
  | .err _ => "error"

/-- `func quote(v interface{}) string`: nil becomes the empty string,
`fmt.Stringer`/`error` values are first converted via `fmt.Sprint`,
then the result is marshalled with `encoding/json`. -/
def quote : Value → String
  | .vnil => jsonStr ""
  | .err e => jsonStr e
  | .str s => jsonStr s
  | .int n => intStr n
  | .bool b => if b then "true" else "false"
  | .strArr xs => "[" ++ joinComma (xs.map jsonStr) ++ "]"
  | .intArr xs => "[" ++ joinComma (xs.map intStr) ++ "]"

/-- `fmt.Sprintf("%q", r)` for an int (Go prints a rune literal). -/
def fmtQRune (n : Int) : String :=
  if 0 ≤ n ∧ n < 55296 ∨ 57343 < n ∧ n < 1114112 then
    "'" ++ goEscapeChar (Char.ofNat n.toNat) ++ "'"
  else "'\\ufffd'"

/-- The `%q` verb used by `fields.String` to render keys. -/
def fmtQ : Value → String
  | .str s => goQuote s
  | .err e => goQuote e
  | .int n => fmtQRune n
  | .bool b => "%!q(bool=" ++ (if b then "true" else "false") ++ ")"
  | .vnil => "%!q(<nil>)"
  | .strArr xs => "[" ++ joinSp (xs.map goQuote) ++ "]"
  | .intArr xs => "[" ++ joinSp (xs.map fmtQRune) ++ "]"

/-- The loop of `fields.String`: walks the list a pair at a time
(`i+1 < len(f)` drops a trailing unpaired element), skips suppressed
values, and tracks the separator (`""` before the first emitted pair,
`", "` afterwards). -/
def fieldsStringAux : String → List Value → String
  | sep, k :: v :: rest =>
    if suppress v then fieldsStringAux sep rest
    else sep ++ fmtQ k ++ ":" ++ quote v ++ fieldsStringAux ", " rest
  | _, _ => ""

/-- `func (f fields) String() string`. -/
def fields.String (f : List Value) : String :=
  "\x7b" ++ fieldsStringAux "" f ++ "\x7d"

/-- `func (l fields) Add(f ...interface{}) fields`:
`append(append(fields\x7b\x7d, l...), f...)` — a fresh sequence equal to
the receiver concatenated with the arguments. -/
def fields.Add (l f : List Value) : List Value :=
  (([] : List Value) ++ l) ++ f

/-- `func (f fields) Export() (kv []string)`: unquoted key/value pairs,
skipping a pair when the key or value is the empty string or the value
is nil (checked both on the raw interface value and on its
`fmt.Sprint` form). -/
def fields.Export : List Value → List Str
  | k :: v :: rest =>
    if k == Value.str "" || v == Value.str "" || v == Value.vnil then
      fields.Export rest
    else
      let ks := vsprint k
      let vs := vsprint v
      if ks = "" ∨ vs = "" then fields.Export rest
      else ks :: vs :: fields.Export rest
  | _ => []

/-- The `fmt` rendering of arguments left over after the format string
is exhausted: `%!(EXTRA type=value, ...)`. -/
def extras (vs : List Value) : String :=
  joinCommaSp (vs.map fun v => goType v ++ "=" ++ vsprint v)

def extrasStr (vs : List Value) : String :=
  if vs.isEmpty then "" else "%!(EXTRA " ++ extras vs ++ ")"

/-- One `fmt` verb applied to one argument (`%v`, `%s`, `%d`, or the
bad-verb form for anything else). -/
def verb (d : Char) (v : Value) : String :=
  if d = 'v' then vsprint v
  else if d = 's' then
    match v with
    | .str s => s
    | .err e => e
    | .strArr _ => vsprint v
    | _ => "%!s(" ++ goType v ++ "=" ++ vsprint v ++ ")"
  else if d = 'd' then
    match v with
    | .int n => intStr n
    | _ => "%!d(" ++ goType v ++ "=" ++ vsprint v ++ ")"
  else "%!" ++ String.singleton d ++ "(" ++ goType v ++ "=" ++ vsprint v ++ ")"

/-- The scanner of `fmt.Sprintf`: literal characters pass through,
`%%` emits a percent sign, any other verb consumes one argument. -/
def sprintfAux : List Char → List Value → String
  | [], vs => extrasStr vs
  | c :: rest, vs =>
    if c = '%' then
      match rest with
      | [] => "%!(NOVERB)" ++ extrasStr vs
      | d :: rest2 =>
        if d = '%' then "%" ++ sprintfAux rest2 vs
        else
          match vs with
          | [] => "%!" ++ String.singleton d ++ "(MISSING)" ++ sprintfAux rest2 []
          | v :: vs2 => verb d v ++ sprintfAux rest2 vs2
    else String.singleton c ++ sprintfAux rest vs

/-- `fmt.Sprintf` over the modelled value universe. -/
def sprintf (f : String) (v : List Value) : String :=
  sprintfAux f.data v

/-- The observable side effects of a render/write, in program order:
evaluation of the `Time` function, execution of an attached hook,
a write to the sink, and the `panic(trapme(...))` of a fatal line. -/
inductive Event where
  | timeEval
  | hookRun
  | write (s : Str)
  | panicked (payload : Str)
deriving DecidableEq, Repr

/-- The data of a `line` visible to an attached hook: the hook always
receives the line with its `fn` field already set to nil, so the
hook-cleared line is fully described by these three fields. -/
structure lineCore where
  fields : List Value
  Level : Str
  msg : Str
deriving DecidableEq, Repr

/-- `type line struct`: an optional hook plus the embedded field list,
level tag and message. -/
structure line where
  fn : Option (lineCore → lineCore)
  core : lineCore

/-- The package-scoped configuration read by every render: `Service`,
the value the `Time` function returns, `Tags`, and `DebugOn`. -/
structure Globals where
  Service : String
  TimeVal : Value
  Tags : List Value
  DebugOn : Bool

def Info : line := ⟨none, ⟨[], "info", ""⟩⟩
def Warn : line := ⟨none, ⟨[], "warn", ""⟩⟩
def Error : line := ⟨none, ⟨[], "error", ""⟩⟩
def Fatal : line := ⟨none, ⟨[], "fatal", ""⟩⟩
def Debug : line := ⟨none, ⟨[], "debug", ""⟩⟩

/-- `func (l line) Msg(f string, v ...interface{}) line`. -/
def line.Msg (l : line) (f : Str) (v : List Value) : line :=
  { l with core := { l.core with msg := sprintf f v } }

/-- `func (l line) Add(field ...interface{}) line`. -/
def line.Add (l : line) (fs : List Value) : line :=
  { l with core := { l.core with fields := fields.Add l.core.fields fs } }

/-- `func (l line) AddFunc(fn func(ln Line) Line) Line`. -/
def line.AddFunc (l : line) (fn : Option (lineCore → lineCore)) : line :=
  { l with fn := fn }

/-- The hook phase of `line.String`: `fn := l.fn; l.fn = nil;
l = fn(l); l.fn = fn` — the hook is detached, run once on the
hook-cleared line, and reattached to the copy the hook returned. -/
def line.hookStep (l : line) : line :=
  match l.fn with
  | none => l
  | some fn => { fn := some fn, core := fn l.core }

/-- The full pair sequence assembled by `line.String`: the fixed header
(`svc`, `ts`, `level`), then `Tags`, then the instance fields, then the
`msg` pair. -/
def line.assembled (G : Globals) (c : lineCore) : List Value :=
  (([Value.str "svc", Value.str G.Service, Value.str "ts", G.TimeVal,
      Value.str "level", Value.str c.Level] ++ G.Tags) ++ c.fields)
    ++ [Value.str "msg", Value.str c.msg]

/-- `func (l line) String() string`, instrumented with its event trace:
the hook (if any) runs first, then `Time()` is evaluated while the
header is assembled, then the pair sequence is serialized. -/
def line.StringT (G : Globals) (l : line) : Str × List Event :=
  match l.fn with
  | none => (fields.String (line.assembled G l.core), [Event.timeEval])
  | some fn =>
    (fields.String (line.assembled G (fn l.core)), [Event.hookRun, Event.timeEval])

/-- The string returned by `line.String`. -/
def line.String (G : Globals) (l : line) : Str :=
  (line.StringT G l).1

/-- `func (l line) Printf(f string, v ...interface{})`, as its event
trace: a debug line with `DebugOn` unset is a no-op; otherwise the
rendered record plus newline is written to the sink, and a fatal line
additionally panics with `trapme(fmt.Sprintf("fatal: "+f, v...))`. -/
def line.PrintfT (G : Globals) (l : line) (f : Str) (v : List Value) : List Event :=
  if l.core.Level = Debug.core.Level ∧ G.DebugOn = false then []
  else
    let r := line.StringT G (line.Msg l f v)
    let ev := r.2 ++ [Event.write (r.1 ++ "\n")]
    if l.core.Level = "fatal" then
      ev ++ [Event.panicked (sprintf ("fatal: " ++ f) v)]
    else ev

/-- The key/value pairs of a field list, in list order; a trailing
unpaired element is dropped, exactly as the `i+1 < len(f)` loop bound
does. -/
def pairsOf : List Value → List (Value × Value)
  | k :: v :: rest => (k, v) :: pairsOf rest
  | _ => []

/-- The text of one emitted pair: quoted key, colon, quoted value. -/
def renderPair (p : Value × Value) : String :=
  fmtQ p.1 ++ ":" ++ quote p.2

/-- The pairs a render actually emits: the pair sequence with every
suppressed value removed, order preserved. -/
def emitted (f : List Value) : List (Value × Value) :=
  (pairsOf f).filter (fun p => !suppress p.2)

def joinTail : List (Value × Value) → String
  | [] => ""
  | q :: qs => ", " ++ renderPair q ++ joinTail qs

/-- Comma-separated rendering of a pair list. -/
def joinPairs : List (Value × Value) → String
  | [] => ""
  | p :: ps => renderPair p ++ joinTail ps

def auxSpec (sep : String) : List (Value × Value) → String
  | [] => ""
  | p :: ps => sep ++ renderPair p ++ joinTail ps

/-- The configuration of the package examples: service `ex`, time fixed
to `1000`, no tags, debug off. -/
def G0 : Globals := ⟨"ex", Value.int 1000, [], false⟩

/-- A configuration with one global tag pair. -/
def Gw : Globals := ⟨"ex", Value.int 7, [Value.str "t", Value.str "u"], false⟩

/-- `G0` with the debug gate enabled. -/
def Gdb : Globals := ⟨"ex", Value.int 1000, [], true⟩

/-- A concrete line with one instance field pair and a message. -/
def lw : line := ⟨none, ⟨[Value.str "k", Value.str "w"], "info", "m"⟩⟩

/-- A concrete line whose level tag is the empty string. -/
def l9 : line := ⟨none, ⟨[Value.str "k", Value.str "w"], "", "m"⟩⟩

theorem auxSpec_comma (ps : List (Value × Value)) : auxSpec ", " ps = joinTail ps := by
  cases ps <;> rfl

/-- The serialization loop equals the filter-then-join pipeline over
the pair sequence. -/
theorem aux_emitted : ∀ (f : List Value) (sep : String),
    fieldsStringAux sep f = auxSpec sep (emitted f)
  | [], _ => rfl
  | [_], _ => rfl
  | k :: v :: rest, sep => by
    by_cases h : suppress v
    · have ih := aux_emitted rest sep
      simp [fieldsStringAux, emitted, pairsOf, h] at ih ⊢
      exact ih
    · have ih := aux_emitted rest ", "
      rw [auxSpec_comma] at ih
      simp only [fieldsStringAux, h, if_neg, Bool.not_eq_true, ite_false]
      rw [ih]
      simp [emitted, pairsOf, h, auxSpec, renderPair, String.append_assoc]

/-- `fields.String` renders exactly the emitted pairs, joined in
order. -/
theorem fields_string_emitted (f : List Value) :
    fields.String f = "\x7b" ++ joinPairs (emitted f) ++ "\x7d" := by
  rw [fields.String, aux_emitted f ""]
  cases h : emitted f <;> simp [auxSpec, joinPairs]

/-- Splitting the pair sequence across an append, provided the prefix
pairs up evenly. -/
theorem pairsOf_append : ∀ (a : List Value), a.length % 2 = 0 →
    ∀ b, pairsOf (a ++ b) = pairsOf a ++ pairsOf b
  | [], _, _ => rfl
  | [_], h, _ => by simp at h
  | k :: v :: rest, h, b => by
    have h' : rest.length % 2 = 0 := by simp at h; omega
    simp [pairsOf, pairsOf_append rest h' b]

theorem emitted_append (a b : List Value) (h : a.length % 2 = 0) :
    emitted (a ++ b) = emitted a ++ emitted b := by
  simp [emitted, pairsOf_append a h b, List.filter_append]

/-- A pair with a suppressed value contributes nothing to the
serialization loop, wherever it sits (at any evenly-aligned
position). -/
theorem aux_skip : ∀ (pre : List Value), pre.length % 2 = 0 →
    ∀ (k v : Value), suppress v = true →
    ∀ (post : List Value) (sep : String),
    fieldsStringAux sep (pre ++ k :: v :: post) = fieldsStringAux sep (pre ++ post)
  | [], _, _, v, hv, post, sep => by simp [fieldsStringAux, hv]
  | [_], h, _, _, _, _, _ => by simp at h
  | a :: b :: rest, h, k, v, hv, post, sep => by
    have h' : rest.length % 2 = 0 := by simp at h; omega
    by_cases hb : suppress b
    · simp only [List.cons_append, fieldsStringAux, hb, ite_true]
      exact aux_skip rest h' k v hv post sep
    · simp only [List.cons_append, fieldsStringAux, hb, Bool.false_eq_true, ite_false,
        List.append_eq]
      rw [aux_skip rest h' k v hv post ", "]

/-- A trailing unpaired element contributes nothing to rendering. -/
theorem string_trailing (f : List Value) (h : f.length % 2 = 0) (x : Value) :
    fields.String (f ++ [x]) = fields.String f := by
  rw [fields_string_emitted, fields_string_emitted]
  have he : emitted (f ++ [x]) = emitted f := by
    simp [emitted, pairsOf_append f h [x], pairsOf]
  rw [he]

/-- A trailing unpaired element contributes nothing to `Export`. -/
theorem export_trailing : ∀ (f : List Value), f.length % 2 = 0 →
    ∀ x, fields.Export (f ++ [x]) = fields.Export f
  | [], _, _ => rfl
  | [_], h, _ => by simp at h
  | k :: v :: rest, h, x => by
    have h' : rest.length % 2 = 0 := by simp at h; omega
    simp only [List.cons_append, fields.Export, List.append_eq, export_trailing rest h' x]

/-- `fields.String` form of `aux_skip`: removing an evenly-aligned pair
with a suppressed value leaves the rendering unchanged. -/
theorem string_skip (pre : List Value) (hpre : pre.length % 2 = 0) (k v : Value)
    (hv : suppress v = true) (post : List Value) :
    fields.String (pre ++ k :: v :: post) = fields.String (pre ++ post) := by
  rw [fields.String, fields.String, aux_skip pre hpre k v hv post ""]

/-- A format-string prefix free of `%` passes through `fmt.Sprintf`
verbatim. -/
theorem sprintfAux_lead : ∀ (pre : List Char), (∀ c ∈ pre, c ≠ '%') →
    ∀ (rest : List Char) (vs : List Value),
    sprintfAux (pre ++ rest) vs = String.mk pre ++ sprintfAux rest vs
  | [], _, rest, vs => by
    apply String.ext
    simp [String.data_append]
  | c :: pre, hp, rest, vs => by
    have hc : c ≠ '%' := hp c (by simp)
    have ih := sprintfAux_lead pre (fun d hd => hp d (by simp [hd])) rest vs
    have step : sprintfAux (c :: pre ++ rest) vs
        = String.singleton c ++ sprintfAux (pre ++ rest) vs := by
      rw [sprintfAux.eq_def]
      simp [hc]
    rw [step, ih]
    apply String.ext
    simp [String.data_append, String.singleton]

/-- `fmt.Sprintf("fatal: "+f, v...)` is the plain formatted message with
the `fatal: ` lead attached. -/
theorem sprintf_fatal_lead (f : String) (v : List Value) :
    sprintf ("fatal: " ++ f) v = "fatal: " ++ sprintf f v := by
  rw [sprintf, sprintf, String.data_append,
    sprintfAux_lead "fatal: ".data (by decide) f.data v]

/-- C2 counterexample: the pair `("hint", []int\x7b\x7d)` carries an empty
array value, yet `Render` keeps it and emits `"hint":[]` — the claim's
unconditional empty-array suppression is false for non-`[]string`
arrays. -/
theorem claim2_counterexample :
    fields.String [Value.str "hint", Value.intArr []] = "\x7b\"hint\":[]\x7d" ∧
    "\x7b\"hint\":[]\x7d" ≠ "\x7b\x7d" := ⟨by decide, by decide⟩

/-- C2 (amended): a pair whose value is nil, the empty string, or an
empty `[]string` is omitted from the rendered output together with its
key, at any evenly-aligned position of the field sequence. -/
theorem claim2_suppression (pre post : List Value) (k v : Value)
    (hpre : pre.length % 2 = 0)
    (hv : v = Value.vnil ∨ v = Value.str "" ∨ v = Value.strArr []) :
    fields.String (pre ++ k :: v :: post) = fields.String (pre ++ post) := by
  have hs : suppress v = true := by rcases hv with h | h | h <;> subst h <;> rfl
  exact string_skip pre hpre k v hs post

/-- Witness for `claim2_suppression` at a concrete input. -/
theorem claim2_witness :
    fields.String ([Value.str "a", Value.int 1]
        ++ Value.str "k" :: Value.vnil :: [Value.str "b", Value.int 2]) =
      fields.String ([Value.str "a", Value.int 1] ++ [Value.str "b", Value.int 2]) :=
  claim2_suppression [Value.str "a", Value.int 1] [Value.str "b", Value.int 2]
    (Value.str "k") Value.vnil (by decide) (Or.inl rfl)

/-- C5: `Add` is cumulative and non-destructive: adding in two steps
equals adding the concatenated argument list in one step, and the new
sequence is a fresh list equal to receiver-plus-arguments (the model is
value-semantic, mirroring the deep copy `append(append(fields\x7b\x7d,
l...), f...)` which never touches the receiver's storage). -/
theorem claim5_add_pure (a x y : List Value) (G : Globals) (l : line) :
    fields.Add (fields.Add a x) y = fields.Add a (x ++ y) ∧
    fields.Add a x = a ++ x ∧
    line.String G (line.Add (line.Add l x) y) = line.String G (line.Add l (x ++ y)) := by
  refine ⟨by simp [fields.Add], by simp [fields.Add], ?_⟩
  have h : line.Add (line.Add l x) y = line.Add l (x ++ y) := by
    simp [line.Add, fields.Add, line.mk.injEq, lineCore.mk.injEq]
  rw [h]

/-- C7 counterexample: with no fields and no message set, the rendered
record has no `msg` pair at all — the empty message is suppressed, so
the record does not end with an empty `msg` pair as claimed. -/
theorem claim7_counterexample :
    line.String G0 Info = "\x7b\"svc\":\"ex\", \"ts\":1000, \"level\":\"info\"\x7d" ∧
    "\x7b\"svc\":\"ex\", \"ts\":1000, \"level\":\"info\"\x7d" ≠
      "\x7b\"svc\":\"ex\", \"ts\":1000, \"level\":\"info\", \"msg\":\"\"\x7d" :=
  ⟨by decide, by decide⟩

/-- C7 (amended): for a Line with no instance fields and no message
set, the rendering is exactly that of the fixed header plus global
tags: the empty-valued `msg` pair is suppressed like any other empty
value. -/
theorem claim7_msg_suppressed (G : Globals) (l : line)
    (hfn : l.fn = none) (hf : l.core.fields = []) (hm : l.core.msg = "")
    (hT : G.Tags.length % 2 = 0) :
    line.String G l =
      fields.String ([Value.str "svc", Value.str G.Service, Value.str "ts", G.TimeVal,
        Value.str "level", Value.str l.core.Level] ++ G.Tags) := by
  simp only [line.String, line.StringT, hfn]
  rw [line.assembled, hf, hm]
  rw [List.append_nil]
  have hpre : ([Value.str "svc", Value.str G.Service, Value.str "ts", G.TimeVal,
      Value.str "level", Value.str l.core.Level] ++ G.Tags).length % 2 = 0 := by
    simp only [List.length_append, List.length_cons, List.length_nil]
    omega
  have hx := string_skip _ hpre (Value.str "msg") (Value.str "") rfl []
  simpa using hx

/-- Witness for `claim7_msg_suppressed` at a concrete input. -/
theorem claim7_witness :
    line.String Gw Info =
      fields.String ([Value.str "svc", Value.str Gw.Service, Value.str "ts", Gw.TimeVal,
        Value.str "level", Value.str Info.core.Level] ++ Gw.Tags) :=
  claim7_msg_suppressed Gw Info rfl rfl rfl (by decide)

/-- C8 counterexample: `Add` with a single unpaired argument stores the
dangling key and yields an odd-length list — the claimed
always-even/never-stored invariant is false. -/
theorem claim8_counterexample :
    fields.Add [] [Value.str "dangling"] = [Value.str "dangling"] ∧
    (fields.Add [] [Value.str "dangling"]).length % 2 = 1 := ⟨rfl, rfl⟩

/-- C8 (amended): `Add` stores every argument, including a trailing
unpaired key, so the stored length can be odd; the trailing element is
instead ignored at serialization time — both `Render` and `Export`
output are unchanged by it. -/
theorem claim8_trailing_ignored (f : List Value) (x : Value) (h : f.length % 2 = 0) :
    fields.Add f [x] = f ++ [x] ∧
    fields.String (fields.Add f [x]) = fields.String f ∧
    fields.Export (fields.Add f [x]) = fields.Export f := by
  have hAdd : fields.Add f [x] = f ++ [x] := by simp [fields.Add]
  exact ⟨hAdd, by rw [hAdd, string_trailing f h x], by rw [hAdd, export_trailing f h x]⟩

/-- Witness for `claim8_trailing_ignored` at a concrete input. -/
theorem claim8_witness :
    fields.Add [Value.str "a", Value.int 1] [Value.str "k"]
        = [Value.str "a", Value.int 1] ++ [Value.str "k"] ∧
    fields.String (fields.Add [Value.str "a", Value.int 1] [Value.str "k"])
        = fields.String [Value.str "a", Value.int 1] ∧
    fields.Export (fields.Add [Value.str "a", Value.int 1] [Value.str "k"])
        = fields.Export [Value.str "a", Value.int 1] :=
  claim8_trailing_ignored [Value.str "a", Value.int 1] (Value.str "k") (by decide)

/-- C9 counterexample: a line whose level tag is empty renders with no
`level` pair at all, not with the default level `info`. -/
theorem claim9_counterexample :
    line.String G0 ⟨none, ⟨[], "", "hi"⟩⟩
        = "\x7b\"svc\":\"ex\", \"ts\":1000, \"msg\":\"hi\"\x7d" ∧
    "\x7b\"svc\":\"ex\", \"ts\":1000, \"msg\":\"hi\"\x7d" ≠
      "\x7b\"svc\":\"ex\", \"ts\":1000, \"level\":\"info\", \"msg\":\"hi\"\x7d" :=
  ⟨by decide, by decide⟩

/-- C9 (amended): when the level tag is the empty string, the `level`
pair is suppressed by the empty-value rule and omitted entirely; no
process-wide default is substituted at render time (the `Default` line
is consulted only by the package-level `Printf`/`Fatalf` helpers). -/
theorem claim9_level_omitted (G : Globals) (l : line) (hfn : l.fn = none)
    (h : l.core.Level = "") :
    line.String G l =
      fields.String ([Value.str "svc", Value.str G.Service, Value.str "ts", G.TimeVal]
        ++ (G.Tags ++ l.core.fields ++ [Value.str "msg", Value.str l.core.msg])) := by
  simp only [line.String, line.StringT, hfn]
  rw [line.assembled, h]
  have hsplit : (([Value.str "svc", Value.str G.Service, Value.str "ts", G.TimeVal,
        Value.str "level", Value.str ""] ++ G.Tags) ++ l.core.fields)
        ++ [Value.str "msg", Value.str l.core.msg]
      = [Value.str "svc", Value.str G.Service, Value.str "ts", G.TimeVal]
        ++ Value.str "level" :: Value.str ""
          :: (G.Tags ++ l.core.fields ++ [Value.str "msg", Value.str l.core.msg]) := by
    simp [List.append_assoc]
  rw [hsplit]
  exact string_skip [Value.str "svc", Value.str G.Service, Value.str "ts", G.TimeVal]
    (by simp) (Value.str "level") (Value.str "") rfl
    (G.Tags ++ l.core.fields ++ [Value.str "msg", Value.str l.core.msg])

/-- Witness for `claim9_level_omitted` at a concrete input. -/
theorem claim9_witness :
    line.String G0 l9 =
      fields.String ([Value.str "svc", Value.str G0.Service, Value.str "ts", G0.TimeVal]
        ++ (G0.Tags ++ l9.core.fields ++ [Value.str "msg", Value.str l9.core.msg])) :=
  claim9_level_omitted G0 l9 rfl rfl

/-- C1: the rendered record is the comma-join, in exactly this order, of
the surviving pairs of: the `svc` pair, the `ts` pair, the `level`
pair, the global tag pairs in list order, the instance field pairs in
the order their `Add` calls composed them, and finally the `msg`
pair. -/
theorem claim1_field_order (G : Globals) (l : line) (hfn : l.fn = none)
    (hT : G.Tags.length % 2 = 0) (hf : l.core.fields.length % 2 = 0) :
    line.String G l =
      "\x7b" ++ joinPairs (List.filter (fun p => !suppress p.2)
        ([(Value.str "svc", Value.str G.Service), (Value.str "ts", G.TimeVal),
          (Value.str "level", Value.str l.core.Level)]
          ++ pairsOf G.Tags ++ pairsOf l.core.fields
          ++ [(Value.str "msg", Value.str l.core.msg)])) ++ "\x7d" := by
  simp only [line.String, line.StringT, hfn]
  rw [fields_string_emitted]
  suffices hmain : emitted (line.assembled G l.core)
      = List.filter (fun p => !suppress p.2)
        ([(Value.str "svc", Value.str G.Service), (Value.str "ts", G.TimeVal),
          (Value.str "level", Value.str l.core.Level)]
          ++ pairsOf G.Tags ++ pairsOf l.core.fields
          ++ [(Value.str "msg", Value.str l.core.msg)]) by
    rw [hmain]
  rw [line.assembled]
  have e1 := emitted_append (([Value.str "svc", Value.str G.Service, Value.str "ts",
      G.TimeVal, Value.str "level", Value.str l.core.Level] ++ G.Tags) ++ l.core.fields)
    [Value.str "msg", Value.str l.core.msg]
    (by simp only [List.length_append, List.length_cons, List.length_nil]; omega)
  have e2 := emitted_append ([Value.str "svc", Value.str G.Service, Value.str "ts",
      G.TimeVal, Value.str "level", Value.str l.core.Level] ++ G.Tags) l.core.fields
    (by simp only [List.length_append, List.length_cons, List.length_nil]; omega)
  have e3 := emitted_append [Value.str "svc", Value.str G.Service, Value.str "ts",
      G.TimeVal, Value.str "level", Value.str l.core.Level] G.Tags
    (by simp)
  rw [e1, e2, e3]
  simp [emitted, pairsOf, List.filter_append, List.filter_cons, List.append_assoc]
  split_ifs <;> simp [List.append_assoc]

/-- Witness for `claim1_field_order` at a concrete input. -/
theorem claim1_witness :
    line.String Gw lw =
      "\x7b" ++ joinPairs (List.filter (fun p => !suppress p.2)
        ([(Value.str "svc", Value.str Gw.Service), (Value.str "ts", Gw.TimeVal),
          (Value.str "level", Value.str lw.core.Level)]
          ++ pairsOf Gw.Tags ++ pairsOf lw.core.fields
          ++ [(Value.str "msg", Value.str lw.core.msg)])) ++ "\x7d" :=
  claim1_field_order Gw lw rfl (by decide) (by decide)

/-- C10: the empty-array half of zero-value suppression fires only for
`[]string`: `zero` holds exactly of the empty string slice, and an
empty array of any other element type survives suppression and renders
as the JSON array `[]`. -/
theorem claim10_strslice_only (k : Value) (f : List Value) (h : f.length % 2 = 0) :
    (∀ v : Value, zero v = true ↔ v = Value.strArr []) ∧
    quote (Value.intArr []) = "[]" ∧
    emitted (f ++ [k, Value.intArr []]) = emitted f ++ [(k, Value.intArr [])] ∧
    fields.String [Value.str "other", Value.intArr []] = "\x7b\"other\":[]\x7d" := by
  refine ⟨?_, rfl, ?_, by decide⟩
  · intro v
    cases v <;> simp [zero, List.isEmpty_iff]
  · rw [emitted_append f [k, Value.intArr []] h]
    simp [emitted, pairsOf, suppress, zero]

/-- Witness for `claim10_strslice_only` at a concrete input. -/
theorem claim10_witness :
    (∀ v : Value, zero v = true ↔ v = Value.strArr []) ∧
    quote (Value.intArr []) = "[]" ∧
    emitted ([Value.str "a", Value.int 1] ++ [Value.str "hintC", Value.intArr []]) =
      emitted [Value.str "a", Value.int 1] ++ [(Value.str "hintC", Value.intArr [])] ∧
    fields.String [Value.str "other", Value.intArr []] = "\x7b\"other\":[]\x7d" :=
  claim10_strslice_only (Value.str "hintC") [Value.str "a", Value.int 1] (by decide)

/-- C4: rendering a line with a hook runs the hook exactly once (one
`hookRun` event per render) on the hook-cleared data of the line (a
`lineCore`, the view of the line with `fn` already nil), serializes the
core the hook returned, and `hookStep` reattaches the original hook to
that returned copy; a line with no hook skips the step entirely. -/
theorem claim4_hook (G : Globals) (fn : lineCore → lineCore) (c : lineCore) :
    line.StringT G ⟨some fn, c⟩ =
      (fields.String (line.assembled G (fn c)), [Event.hookRun, Event.timeEval]) ∧
    line.hookStep ⟨some fn, c⟩ = ⟨some fn, fn c⟩ ∧
    line.StringT G ⟨none, c⟩ = (fields.String (line.assembled G c), [Event.timeEval]) :=
  ⟨rfl, rfl, rfl⟩

/-- C6: with the debug gate off, the whole write path of a debug-level
line is a no-op — the event trace is empty, so neither the hook nor the
time source is evaluated and nothing is written; with the gate on, the
normal render-and-write trace is produced. -/
theorem claim6_debug_gate (G : Globals) (l : line) (f : Str) (v : List Value)
    (h : l.core.Level = "debug") :
    (G.DebugOn = false → line.PrintfT G l f v = []) ∧
    (G.DebugOn = true →
      line.PrintfT G l f v =
        (line.StringT G (line.Msg l f v)).2
          ++ [Event.write ((line.StringT G (line.Msg l f v)).1 ++ "\n")]) := by
  constructor
  · intro hd
    simp [line.PrintfT, h, hd, Debug]
  · intro hd
    simp [line.PrintfT, h, hd, Debug,
      show ("debug" : String) ≠ "fatal" from by decide]

/-- Witness for `claim6_debug_gate` at concrete inputs: the same debug
line is silent under `G0` (gate off) and writes normally under `Gdb`
(gate on). -/
theorem claim6_witness :
    line.PrintfT G0 Debug "x" [] = [] ∧
    line.PrintfT Gdb Debug "x" [] =
      (line.StringT Gdb (line.Msg Debug "x" [])).2
        ++ [Event.write ((line.StringT Gdb (line.Msg Debug "x" [])).1 ++ "\n")] :=
  ⟨(claim6_debug_gate G0 Debug "x" [] rfl).1 rfl,
   (claim6_debug_gate Gdb Debug "x" [] rfl).2 rfl⟩

/-- C3 counterexample: `Fatal.Printf("boom")` writes the record and then
panics with payload `fatal: boom`, while the formatted message is
`boom` — the payload does not equal the formatted message as
claimed. -/
theorem claim3_counterexample :
    line.PrintfT G0 Fatal "boom" [] =
      [Event.timeEval,
       Event.write "\x7b\"svc\":\"ex\", \"ts\":1000, \"level\":\"fatal\", \"msg\":\"boom\"\x7d\n",
       Event.panicked "fatal: boom"] ∧
    sprintf "boom" [] = "boom" ∧
    ("fatal: boom" : String) ≠ "boom" :=
  ⟨by decide, by decide, by decide⟩

/-- C3 (amended): every fatal-level write first renders and writes the
record to the sink and only afterwards raises the abnormal-termination
panic, whose payload is the formatted message prefixed with
`fatal: `. -/
theorem claim3_fatal_order (G : Globals) (l : line) (f : Str) (v : List Value)
    (h : l.core.Level = "fatal") :
    line.PrintfT G l f v =
      (line.StringT G (line.Msg l f v)).2
        ++ [Event.write ((line.StringT G (line.Msg l f v)).1 ++ "\n"),
            Event.panicked ("fatal: " ++ sprintf f v)] ∧
    (line.Msg l f v).core.msg = sprintf f v := by
  refine ⟨?_, rfl⟩
  simp [line.PrintfT, h, Debug, sprintf_fatal_lead,
    show ("fatal" : String) ≠ "debug" from by decide]

/-- Witness for `claim3_fatal_order` at a concrete input. -/
theorem claim3_witness :
    line.PrintfT G0 Fatal "pi" [] =
      (line.StringT G0 (line.Msg Fatal "pi" [])).2
        ++ [Event.write ((line.StringT G0 (line.Msg Fatal "pi" [])).1 ++ "\n"),
            Event.panicked ("fatal: " ++ sprintf "pi" [])] ∧
    (line.Msg Fatal "pi" []).core.msg = sprintf "pi" [] :=
  claim3_fatal_order G0 Fatal "pi" [] rfl

end log
